import Mathlib

/-!
Verification development for the influxdb retention-enforcement service and its
neighbouring helpers (`services/retention`, `debug` mux, `models/rows.go`).

The Go source is embedded shallowly:

* Go maps are modelled as the ordered list of writes performed on them
  (`GoMap`); lookup returns the value of the last write for a key, which is
  exactly Go's overwrite semantics.
* The two retention sweeps (`Service.deleteShardGroups`, `Service.deleteShards`)
  are modelled as pure functions from a collaborator environment (`Env`) to the
  list of observable events they produce: collaborator calls and log lines.
* The two reaper loops, `Open`/`Close` and the force-trigger channels are
  modelled as a labelled transition system (`Sys`, `stepFn`, `sysRun`); channel
  close-of-closed panic semantics are modelled by `serviceCloseDone`.
* `Row.tagsHash` / `Row.SameSeries` and the `/debug/vars` handler `serveExpvar`
  are modelled directly as pure functions.
-/

/-- GoMap models a Go map value as the ordered list of writes performed on it.
An assignment `m[k] = v` appends `(k, v)`; a lookup `m[k]` returns the value of
the last write for `k` (Go assignments overwrite earlier ones). -/
abbrev GoMap (α β : Type) : Type := List (α × β)

/-- Lookup in a `GoMap`: the value of the last write whose key matches. -/
def GoMap.get? {α β : Type} [DecidableEq α] (m : GoMap α β) (k : α) : Option β :=
  (m.reverse.find? (fun p => p.1 == k)).map Prod.snd

/-! ## Data model of the retention service (`services/retention`)

`DatabaseInfo`, `RetentionPolicyInfo`, `ShardGroupInfo`, `ShardInfo` mirror the
meta-package structures the service reads. Time instants and durations are
embedded as integers. -/

structure ShardInfo where
  ID : Nat
deriving DecidableEq

structure ShardGroupInfo where
  ID : Nat
  EndTime : Int
  Deleted : Bool
  Shards : List ShardInfo
deriving DecidableEq

structure RetentionPolicyInfo where
  Name : String
  Duration : Int
  ShardGroups : List ShardGroupInfo
deriving DecidableEq

structure DatabaseInfo where
  Name : String
  RetentionPolicies : List RetentionPolicyInfo
deriving DecidableEq

/-- Modelled from the spec: `ExpiredShardGroups` is meta-package code that is not
under src (only its caller `Service.deleteShardGroups` is). Per spec sections 3
and 8 it is the subset of the policy's shard groups that are still
metadata-present and whose end time plus the policy's retention duration has
passed at the given instant. -/
def RetentionPolicyInfo.ExpiredShardGroups (r : RetentionPolicyInfo) (now : Int) :
    List ShardGroupInfo :=
  r.ShardGroups.filter (fun g => !g.Deleted && decide (g.EndTime + r.Duration ≤ now))

/-- Modelled from the spec: `DeletedShardGroups` is meta-package code that is not
under src (only its caller `Service.deleteShards` is). Per spec section 3 it is
the subset of the policy's shard groups already marked deleted in metadata. -/
def RetentionPolicyInfo.DeletedShardGroups (r : RetentionPolicyInfo) :
    List ShardGroupInfo :=
  r.ShardGroups.filter (fun g => g.Deleted)

/-- Observable collaborator calls made by a sweep (MetaClient and TSDBStore). -/
inductive Call where
  | databases : Call
  | deleteShardGroup (database policy : String) (id : Nat) : Call
  | shardIDs : Call
  | deleteShard (id : Nat) : Call
deriving DecidableEq

/-- Observable events of a sweep: a collaborator call or a log line. -/
inductive Event where
  | call : Call → Event
  | log : String → Event
deriving DecidableEq

/-- Collaborator environment of one sweep: the metadata returned by
`MetaClient.Databases()`, the physical IDs returned by `TSDBStore.ShardIDs()`,
and the error oracles deciding which deletion calls fail. -/
structure Env where
  dbs : List DatabaseInfo
  shardIDs : List Nat
  deleteShardGroupErr : String → String → Nat → Bool
  deleteShardErr : Nat → Bool

/-- Events produced for one expired shard group inside
`Service.deleteShardGroups`: the `DeleteShardGroup` call followed by the
failure or success log line. -/
def groupDeleteEvents (errf : String → String → Nat → Bool) (dbName rpName : String)
    (g : ShardGroupInfo) : List Event :=
  [Event.call (Call.deleteShardGroup dbName rpName g.ID),
   if errf dbName rpName g.ID then
     Event.log ("failed to delete shard group " ++ toString g.ID ++ " from database "
       ++ dbName ++ ", retention policy " ++ rpName)
   else
     Event.log ("deleted shard group " ++ toString g.ID ++ " from database "
       ++ dbName ++ ", retention policy " ++ rpName)]

/-- Embedding of `Service.deleteShardGroups`: fetch the databases, then for every
database, every retention policy and every currently expired shard group, call
`MetaClient.DeleteShardGroup` and log the outcome. -/
def deleteShardGroups (env : Env) (now : Int) : List Event :=
  Event.call Call.databases ::
    env.dbs.flatMap (fun d =>
      d.RetentionPolicies.flatMap (fun r =>
        (r.ExpiredShardGroups now).flatMap
          (groupDeleteEvents env.deleteShardGroupErr d.Name r.Name)))

/-- The value type of the `deletedShardIDs` map in `Service.deleteShards`. -/
structure deletionInfo where
  db : String
  rp : String
deriving DecidableEq

/-- Embedding of the map-building loop of `Service.deleteShards`: for every
shard of every metadata-deleted shard group, write
`deletedShardIDs[sh.ID] = deletionInfo{db, rp}` (in iteration order, later
writes overwriting earlier ones). -/
def buildDeletedShardIDs (dbs : List DatabaseInfo) : GoMap Nat deletionInfo :=
  dbs.flatMap (fun d =>
    d.RetentionPolicies.flatMap (fun r =>
      r.DeletedShardGroups.flatMap (fun g =>
        g.Shards.map (fun sh => (sh.ID, deletionInfo.mk d.Name r.Name)))))

/-- Events produced for one physical shard ID inside the deletion loop of
`Service.deleteShards`: nothing if the ID is not in the orphan map, otherwise
the `DeleteShard` call followed by the failure or success log line. -/
def shardDeleteEvents (env : Env) (id : Nat) : List Event :=
  match (buildDeletedShardIDs env.dbs).get? id with
  | some di =>
      Event.call (Call.deleteShard id) ::
        (if env.deleteShardErr id then
          [Event.log ("failed to delete shard ID " ++ toString id ++ " from database "
            ++ di.db ++ ", retention policy " ++ di.rp)]
        else
          [Event.log ("shard ID " ++ toString id ++ " from database " ++ di.db
            ++ ", retention policy " ++ di.rp ++ ", deleted")])
  | none => []

/-- Embedding of `Service.deleteShards`: log the commencing line, fetch the
databases and build the orphan map, fetch the physical shard IDs, then delete
every physical shard that appears in the orphan map. -/
def deleteShards (env : Env) : List Event :=
  Event.log "retention policy shard deletion check commencing" ::
    Event.call Call.databases ::
      Event.call Call.shardIDs ::
        env.shardIDs.flatMap (shardDeleteEvents env)

/-- Projection of an event trace onto the collaborator calls it contains. -/
def callsOf (tr : List Event) : List Call :=
  tr.filterMap (fun e => match e with | Event.call c => some c | Event.log _ => none)

lemma callsOf_nil : callsOf [] = [] := rfl

lemma callsOf_cons_call (c : Call) (tr : List Event) :
    callsOf (Event.call c :: tr) = c :: callsOf tr := rfl

lemma callsOf_cons_log (s : String) (tr : List Event) :
    callsOf (Event.log s :: tr) = callsOf tr := rfl

lemma callsOf_append (tr₁ tr₂ : List Event) :
    callsOf (tr₁ ++ tr₂) = callsOf tr₁ ++ callsOf tr₂ := by
  simp [callsOf]

lemma callsOf_flatMap {α : Type} (l : List α) (f : α → List Event) :
    callsOf (l.flatMap f) = l.flatMap (fun a => callsOf (f a)) := by
  induction l with
  | nil => rfl
  | cons a l ih => simp [List.flatMap_cons, callsOf_append, ih]

lemma callsOf_groupDeleteEvents (errf : String → String → Nat → Bool)
    (dbName rpName : String) (g : ShardGroupInfo) :
    callsOf (groupDeleteEvents errf dbName rpName g) =
      [Call.deleteShardGroup dbName rpName g.ID] := by
  unfold groupDeleteEvents
  cases errf dbName rpName g.ID <;> rfl

lemma flatMap_ext {α β : Type} (l : List α) {f g : α → List β} (h : ∀ a, f a = g a) :
    l.flatMap f = l.flatMap g := by
  have hfg : f = g := funext h
  rw [hfg]

lemma flatMap_single {α β : Type} (l : List α) (f : α → β) :
    l.flatMap (fun a => [f a]) = l.map f := by
  induction l with
  | nil => rfl
  | cons a l ih => simp [List.flatMap_cons, ih]

/-- The calls of a shard-group sweep, independent of the error oracle. -/
lemma callsOf_deleteShardGroups (env : Env) (now : Int) :
    callsOf (deleteShardGroups env now) =
      Call.databases ::
        env.dbs.flatMap (fun d =>
          d.RetentionPolicies.flatMap (fun r =>
            (r.ExpiredShardGroups now).map
              (fun g => Call.deleteShardGroup d.Name r.Name g.ID))) := by
  unfold deleteShardGroups
  rw [callsOf_cons_call, callsOf_flatMap]
  congr 1
  apply flatMap_ext
  intro d
  rw [callsOf_flatMap]
  apply flatMap_ext
  intro r
  rw [callsOf_flatMap]
  rw [flatMap_ext _ (fun g => callsOf_groupDeleteEvents env.deleteShardGroupErr d.Name r.Name g)]
  exact flatMap_single _ _

lemma callsOf_shardDeleteEvents (env : Env) (id : Nat) :
    callsOf (shardDeleteEvents env id) =
      if ((buildDeletedShardIDs env.dbs).get? id).isSome then [Call.deleteShard id]
      else [] := by
  unfold shardDeleteEvents
  cases h : (buildDeletedShardIDs env.dbs).get? id with
  | none => simp [h, callsOf]
  | some di =>
      cases henv : env.deleteShardErr id <;> simp [h, henv, callsOf]

/-- The calls of a shard sweep, independent of the error oracle. -/
lemma callsOf_deleteShards (env : Env) :
    callsOf (deleteShards env) =
      Call.databases :: Call.shardIDs ::
        env.shardIDs.flatMap (fun id =>
          if ((buildDeletedShardIDs env.dbs).get? id).isSome then [Call.deleteShard id]
          else []) := by
  unfold deleteShards
  rw [callsOf_cons_log, callsOf_cons_call, callsOf_cons_call, callsOf_flatMap]
  congr 2
  exact flatMap_ext _ (fun id => callsOf_shardDeleteEvents env id)

/-! ## Lookup lemmas for the Go-map model -/

lemma mem_ite_singleton {α : Type} (a b : α) (c : Prop) [Decidable c] :
    (a ∈ if c then [b] else []) ↔ (c ∧ a = b) := by
  by_cases h : c <;> simp [h]

lemma GoMap.get?_isSome {α β : Type} [DecidableEq α] (m : GoMap α β) (k : α) :
    ((GoMap.get? m k).isSome = true) ↔ ∃ v, (k, v) ∈ m := by
  unfold GoMap.get?
  have hfind : ((m.reverse.find? (fun p => p.1 == k)).isSome = true) ↔ ∃ v, (k, v) ∈ m := by
    rw [List.find?_isSome]
    constructor
    · rintro ⟨⟨k', v⟩, hm, hk⟩
      rw [List.mem_reverse] at hm
      have hkk : k' = k := by simpa using hk
      subst hkk
      exact ⟨v, hm⟩
    · rintro ⟨v, hv⟩
      exact ⟨(k, v), List.mem_reverse.mpr hv, by simp⟩
  rw [← hfind]
  cases m.reverse.find? (fun p => p.1 == k) <;> simp

lemma GoMap.get?_last {α β : Type} [DecidableEq α] (l₁ l₂ : GoMap α β) (k : α) (v : β)
    (h : ∀ p ∈ l₂, p.1 ≠ k) :
    GoMap.get? (l₁ ++ (k, v) :: l₂) k = some v := by
  unfold GoMap.get?
  rw [List.reverse_append, List.reverse_cons, List.find?_append, List.find?_append]
  have hA : (l₂.reverse.find? (fun p => p.1 == k)) = none := by
    rw [List.find?_eq_none]
    intro x hx
    simp only [List.mem_reverse] at hx
    simpa using h x hx
  have hB : (List.find? (fun p => p.1 == k) [(k, v)]) = some (k, v) := by simp
  simp [hA, hB]

lemma mem_buildDeletedShardIDs (dbs : List DatabaseInfo) (S : Nat) :
    (∃ di, (S, di) ∈ buildDeletedShardIDs dbs) ↔
      ∃ d ∈ dbs, ∃ r ∈ d.RetentionPolicies, ∃ g ∈ r.ShardGroups,
        g.Deleted = true ∧ ∃ sh ∈ g.Shards, sh.ID = S := by
  unfold buildDeletedShardIDs RetentionPolicyInfo.DeletedShardGroups
  simp only [List.mem_flatMap, List.mem_map, List.mem_filter, Prod.mk.injEq]
  constructor
  · rintro ⟨di, d, hd, r, hr, g, ⟨hg, hgdel⟩, sh, hsh, hid, hdi⟩
    exact ⟨d, hd, r, hr, g, hg, hgdel, sh, hsh, hid⟩
  · rintro ⟨d, hd, r, hr, g, hg, hgdel, sh, hsh, hid⟩
    exact ⟨deletionInfo.mk d.Name r.Name, d, hd, r, hr, g, ⟨hg, hgdel⟩, sh, hsh, hid, rfl⟩

/-- C1. Orphan correctness of the shard sweep: `DeleteShard(S)` is called in a
sweep of `deleteShards` if and only if S is among the physical shard IDs
returned by `ShardStore.ShardIDs()` and S belongs to some shard group that
MetaClient currently reports as metadata-deleted; physical shard IDs outside
that set are never passed to `DeleteShard`. -/
theorem deleteShards_orphan_correct (env : Env) (S : Nat) :
    Call.deleteShard S ∈ callsOf (deleteShards env) ↔
      S ∈ env.shardIDs ∧ ∃ d ∈ env.dbs, ∃ r ∈ d.RetentionPolicies,
        ∃ g ∈ r.ShardGroups, g.Deleted = true ∧ ∃ sh ∈ g.Shards, sh.ID = S := by
  rw [callsOf_deleteShards]
  simp only [List.mem_cons, List.mem_flatMap, mem_ite_singleton, reduceCtorEq,
    Call.deleteShard.injEq, false_or]
  constructor
  · rintro ⟨i, hi, hsome, hSi⟩
    subst hSi
    rcases (GoMap.get?_isSome _ _).mp hsome with ⟨di, hdi⟩
    exact ⟨hi, (mem_buildDeletedShardIDs env.dbs _).mp ⟨di, hdi⟩⟩
  · rintro ⟨hS, hex⟩
    refine ⟨S, hS, ?_, rfl⟩
    exact (GoMap.get?_isSome _ _).mpr ((mem_buildDeletedShardIDs env.dbs S).mpr hex)

/-- Environment constructor used to state error-oracle independence. -/
def mkEnv (dbs : List DatabaseInfo) (sids : List Nat)
    (e : String → String → Nat → Bool) (f : Nat → Bool) : Env :=
  ⟨dbs, sids, e, f⟩

/-- C3. Non-aborting failure handling: the collaborator calls of a sweep do not
depend on which deletion calls fail, so when one item's deletion errors every
other item of the same sweep still receives its deletion attempt; the sweep
functions are total and return their trace normally, never propagating the
per-item errors. -/
theorem sweep_calls_error_independent (dbs : List DatabaseInfo) (sids : List Nat)
    (e₁ e₂ : String → String → Nat → Bool) (f₁ f₂ : Nat → Bool) (now : Int) :
    callsOf (deleteShardGroups (mkEnv dbs sids e₁ f₁) now) =
        callsOf (deleteShardGroups (mkEnv dbs sids e₂ f₂) now) ∧
      callsOf (deleteShards (mkEnv dbs sids e₁ f₁)) =
        callsOf (deleteShards (mkEnv dbs sids e₂ f₂)) := by
  constructor
  · rw [callsOf_deleteShardGroups, callsOf_deleteShardGroups]
    rfl
  · rw [callsOf_deleteShards, callsOf_deleteShards]
    rfl

/-- Does a call target the physical shard store (TSDBStore)? -/
def Call.isShardStoreOp : Call → Bool
  | Call.shardIDs => true
  | Call.deleteShard _ => true
  | _ => false

/-- Does a call delete shard-group metadata (MetaClient.DeleteShardGroup)? -/
def Call.isMetaDeleteOp : Call → Bool
  | Call.deleteShardGroup _ _ _ => true
  | _ => false

/-- C7. Loop independence of effects: a `deleteShardGroups` sweep never invokes
any ShardStore operation (neither `ShardIDs` nor `DeleteShard`), and a
`deleteShards` sweep never invokes `DeleteShardGroup`. -/
theorem sweep_layer_separation (env : Env) (now : Int) :
    ((callsOf (deleteShardGroups env now)).all (fun c => ! c.isShardStoreOp)) = true ∧
      ((callsOf (deleteShards env)).all (fun c => ! c.isMetaDeleteOp)) = true := by
  constructor
  · rw [callsOf_deleteShardGroups]
    rw [List.all_eq_true]
    intro c hc
    rcases List.mem_cons.mp hc with h | h
    · subst h; rfl
    · rcases List.mem_flatMap.mp h with ⟨d, _, hd⟩
      rcases List.mem_flatMap.mp hd with ⟨r, _, hr⟩
      rcases List.mem_map.mp hr with ⟨g, _, hg⟩
      subst hg; rfl
  · rw [callsOf_deleteShards]
    rw [List.all_eq_true]
    intro c hc
    rcases List.mem_cons.mp hc with h | hc'
    · subst h; rfl
    rcases List.mem_cons.mp hc' with h | h
    · subst h; rfl
    · rcases List.mem_flatMap.mp h with ⟨id, _, hid⟩
      rcases (mem_ite_singleton _ _ _).mp hid with ⟨_, hcid⟩
      subst hcid; rfl

/-! ## Counting lemmas for the sweep traces -/

lemma count_flatMap_single {α β : Type} [DecidableEq α] [DecidableEq β]
    (l : List α) (f : α → List β) (x : β) (a : α)
    (hnd : l.Nodup) (ha : a ∈ l) (hzero : ∀ b ∈ l, b ≠ a → (f b).count x = 0) :
    ((l.flatMap f).count x) = (f a).count x := by
  induction l with
  | nil => cases ha
  | cons c t ih =>
      rw [List.flatMap_cons, List.count_append]
      rcases List.mem_cons.mp ha with h | h
      · subst h
        have hrest : ((t.flatMap f).count x) = 0 := by
          rw [List.count_eq_zero]
          intro hmem
          rcases List.mem_flatMap.mp hmem with ⟨b, hb, hxb⟩
          have hba : b ≠ a := fun e => (List.nodup_cons.mp hnd).1 (e ▸ hb)
          have hz := hzero b (List.mem_cons_of_mem _ hb) hba
          rw [List.count_eq_zero] at hz
          exact hz hxb
        rw [hrest, Nat.add_zero]
      · have hca : c ≠ a := fun e => (List.nodup_cons.mp hnd).1 (e ▸ h)
        rw [hzero c (List.mem_cons_self c t) hca]
        rw [ih (List.nodup_cons.mp hnd).2 h
          (fun b hb hba => hzero b (List.mem_cons_of_mem _ hb) hba)]
        simp

lemma count_map_deleteShardGroup (dn rn : String) (l : List ShardGroupInfo) (I : Nat) :
    ((l.map (fun g => Call.deleteShardGroup dn rn g.ID)).count
        (Call.deleteShardGroup dn rn I)) = ((l.map ShardGroupInfo.ID).count I) := by
  induction l with
  | nil => rfl
  | cons g t ih =>
      simp only [List.map_cons, List.count_cons, ih, beq_iff_eq,
        Call.deleteShardGroup.injEq, true_and]

lemma count_id_filter (l : List ShardGroupInfo) (p : ShardGroupInfo → Bool)
    (g : ShardGroupInfo) (hg : g ∈ l) (hnd : (l.map ShardGroupInfo.ID).Nodup) :
    (((l.filter p).map ShardGroupInfo.ID).count g.ID) =
      if g ∈ l.filter p then 1 else 0 := by
  have hsub : ((l.filter p).map ShardGroupInfo.ID).Sublist (l.map ShardGroupInfo.ID) :=
    (List.filter_sublist l).map ShardGroupInfo.ID
  by_cases hmem : g ∈ l.filter p
  · rw [if_pos hmem]
    exact List.count_eq_one_of_mem (hsub.nodup hnd)
      (List.mem_map.mpr ⟨g, hmem, rfl⟩)
  · rw [if_neg hmem, List.count_eq_zero]
    intro hid
    rcases List.mem_map.mp hid with ⟨g', hg', hgid⟩
    have hg'l : g' ∈ l := (List.mem_filter.mp hg').1
    have : g' = g := List.inj_on_of_nodup_map hnd hg'l hg hgid
    exact hmem (this ▸ hg')

/-- C2. Expiry correctness of the shard-group sweep: assuming database names,
policy names within the database and shard-group IDs within the policy are
unique, `DeleteShardGroup(D.Name, P.Name, G.ID)` is called exactly once in a
sweep of `deleteShardGroups` if G is in P's expired set at the sweep time, and
zero times otherwise. -/
theorem deleteShardGroups_expiry_correct (env : Env) (now : Int)
    (d : DatabaseInfo) (r : RetentionPolicyInfo) (g : ShardGroupInfo)
    (hd : d ∈ env.dbs) (hr : r ∈ d.RetentionPolicies) (hg : g ∈ r.ShardGroups)
    (hdn : (env.dbs.map DatabaseInfo.Name).Nodup)
    (hrn : (d.RetentionPolicies.map RetentionPolicyInfo.Name).Nodup)
    (hgn : (r.ShardGroups.map ShardGroupInfo.ID).Nodup) :
    ((callsOf (deleteShardGroups env now)).count
        (Call.deleteShardGroup d.Name r.Name g.ID)) =
      if g ∈ r.ExpiredShardGroups now then 1 else 0 := by
  rw [callsOf_deleteShardGroups, List.count_cons]
  have hdbz : ∀ d' ∈ env.dbs, d' ≠ d →
      ((d'.RetentionPolicies.flatMap (fun r' =>
        (r'.ExpiredShardGroups now).map
          (fun g' => Call.deleteShardGroup d'.Name r'.Name g'.ID))).count
            (Call.deleteShardGroup d.Name r.Name g.ID)) = 0 := by
    intro d' hd' hne
    rw [List.count_eq_zero]
    intro hmem
    rcases List.mem_flatMap.mp hmem with ⟨r', _, hr'⟩
    rcases List.mem_map.mp hr' with ⟨g', _, hg'⟩
    have hname : d'.Name = d.Name := (Call.deleteShardGroup.injEq _ _ _ _ _ _).mp hg' |>.1
    exact hne (List.inj_on_of_nodup_map hdn hd' hd hname)
  rw [count_flatMap_single env.dbs _ _ d (hdn.of_map _) hd hdbz]
  have hrpz : ∀ r' ∈ d.RetentionPolicies, r' ≠ r →
      (((r'.ExpiredShardGroups now).map
        (fun g' => Call.deleteShardGroup d.Name r'.Name g'.ID)).count
          (Call.deleteShardGroup d.Name r.Name g.ID)) = 0 := by
    intro r' hr' hne
    rw [List.count_eq_zero]
    intro hmem
    rcases List.mem_map.mp hmem with ⟨g', _, hg'⟩
    have hname : r'.Name = r.Name := (Call.deleteShardGroup.injEq _ _ _ _ _ _).mp hg' |>.2.1
    exact hne (List.inj_on_of_nodup_map hrn hr' hr hname)
  rw [count_flatMap_single d.RetentionPolicies _ _ r (hrn.of_map _) hr hrpz]
  rw [count_map_deleteShardGroup]
  unfold RetentionPolicyInfo.ExpiredShardGroups
  rw [count_id_filter r.ShardGroups _ g hg hgn]
  simp [RetentionPolicyInfo.ExpiredShardGroups]

/-- Concrete one-database metadata used by several witnesses: one policy
`autogen` of duration 24 with one expired shard group and one deleted shard
group owning shards 10 and 11. -/
def witnessGroupExpired : ShardGroupInfo := ⟨1, 0, false, [⟨7⟩]⟩

def witnessGroupDeleted : ShardGroupInfo := ⟨2, 0, true, [⟨10⟩, ⟨11⟩]⟩

def witnessPolicy : RetentionPolicyInfo :=
  ⟨"autogen", 24, [witnessGroupExpired, witnessGroupDeleted]⟩

def witnessDb : DatabaseInfo := ⟨"mydb", [witnessPolicy]⟩

def witnessEnv : Env :=
  mkEnv [witnessDb] [10, 11, 12] (fun _ _ _ => false) (fun _ => false)

theorem deleteShardGroups_expiry_correct_witness :
    witnessGroupExpired ∈ witnessPolicy.ShardGroups ∧
      ((callsOf (deleteShardGroups witnessEnv 30)).count
          (Call.deleteShardGroup "mydb" "autogen" 1)) =
        if witnessGroupExpired ∈ witnessPolicy.ExpiredShardGroups 30 then 1 else 0 :=
  ⟨by decide,
    by
      have h := deleteShardGroups_expiry_correct witnessEnv 30 witnessDb
        witnessPolicy witnessGroupExpired
        (by decide) (by decide) (by decide) (by decide) (by decide) (by decide)
      simpa using h⟩

lemma count_deleteShard_flatMap (env : Env) (l : List Nat) (S : Nat) (hnd : l.Nodup) :
    ((l.flatMap (fun id =>
        if ((buildDeletedShardIDs env.dbs).get? id).isSome then [Call.deleteShard id]
        else [])).count (Call.deleteShard S)) ≤ 1 := by
  induction l with
  | nil => simp
  | cons a t ih =>
      rw [List.flatMap_cons, List.count_append]
      rcases List.nodup_cons.mp hnd with ⟨hat, hndt⟩
      by_cases haS : a = S
      · subst haS
        have hrest : ((t.flatMap (fun id =>
            if ((buildDeletedShardIDs env.dbs).get? id).isSome then [Call.deleteShard id]
            else [])).count (Call.deleteShard a)) = 0 := by
          rw [List.count_eq_zero]
          intro hmem
          rcases List.mem_flatMap.mp hmem with ⟨b, hb, hxb⟩
          rcases (mem_ite_singleton _ _ _).mp hxb with ⟨_, he⟩
          have hab : a = b := by simpa using he
          exact hat (hab ▸ hb)
        have hhead : ((if ((buildDeletedShardIDs env.dbs).get? a).isSome
            then [Call.deleteShard a] else []).count (Call.deleteShard a)) ≤ 1 := by
          by_cases h : ((buildDeletedShardIDs env.dbs).get? a).isSome <;> simp [h]
        rw [hrest]
        simpa using hhead
      · have hhead : ((if ((buildDeletedShardIDs env.dbs).get? a).isSome
            then [Call.deleteShard a] else []).count (Call.deleteShard S)) = 0 := by
          by_cases h : ((buildDeletedShardIDs env.dbs).get? a).isSome
          · rw [if_pos h, List.count_eq_zero]
            intro hmem
            have he : Call.deleteShard S = Call.deleteShard a := by simpa using hmem
            exact haS (by simpa using he.symm)
          · rw [if_neg h]
            rfl
        rw [hhead]
        simpa using ih hndt

/-- C8. Duplicate-ID resolution in the orphan map: when the same shard ID
appears under more than one metadata-deleted shard group, the entry written
later in the iteration wins (the map lookup returns it) without any error, and
the shard is still deleted at most once per sweep. -/
theorem orphan_map_last_write_wins (dbs : List DatabaseInfo) (env : Env) (S : Nat) :
    (∀ di l₁ l₂, buildDeletedShardIDs dbs = l₁ ++ (S, di) :: l₂ →
        (∀ p ∈ l₂, p.1 ≠ S) → GoMap.get? (buildDeletedShardIDs dbs) S = some di)
    ∧ (env.shardIDs.Nodup →
        ((callsOf (deleteShards env)).count (Call.deleteShard S)) ≤ 1) := by
  constructor
  · intro di l₁ l₂ heq hlast
    rw [heq]
    exact GoMap.get?_last l₁ l₂ S di hlast
  · intro hnd
    rw [callsOf_deleteShards]
    have hlead : ((Call.databases :: Call.shardIDs ::
        env.shardIDs.flatMap (fun id =>
          if ((buildDeletedShardIDs env.dbs).get? id).isSome then [Call.deleteShard id]
          else [])).count (Call.deleteShard S)) =
        ((env.shardIDs.flatMap (fun id =>
          if ((buildDeletedShardIDs env.dbs).get? id).isSome then [Call.deleteShard id]
          else [])).count (Call.deleteShard S)) := by
      rw [List.count_cons, List.count_cons]
      simp
    rw [hlead]
    exact count_deleteShard_flatMap env env.shardIDs S hnd

/-- Metadata with the same shard ID 10 owned by deleted groups of two different
policies, so that the orphan map sees two writes for key 10. -/
def dupDb : DatabaseInfo :=
  ⟨"db", [⟨"rp1", 1, [⟨1, 0, true, [⟨10⟩]⟩]⟩, ⟨"rp2", 1, [⟨2, 0, true, [⟨10⟩]⟩]⟩]⟩

def dupEnv : Env := mkEnv [dupDb] [10] (fun _ _ _ => false) (fun _ => false)

theorem orphan_map_last_write_wins_witness :
    GoMap.get? (buildDeletedShardIDs [dupDb]) 10 = some (deletionInfo.mk "db" "rp2") ∧
      ((callsOf (deleteShards dupEnv)).count (Call.deleteShard 10)) ≤ 1 :=
  ⟨(orphan_map_last_write_wins [dupDb] dupEnv 10).1 (deletionInfo.mk "db" "rp2")
      [(10, deletionInfo.mk "db" "rp1")] [] (by decide) (by decide),
    (orphan_map_last_write_wins [dupDb] dupEnv 10).2 (by decide)⟩

/-! ## Series identity: `models/rows.go` -/

lemma beq_symm {α : Type} [DecidableEq α] (a b : α) : (a == b) = (b == a) := by
  by_cases h : a = b
  · simp [h]
  · simp [h, Ne.symm h]

/-- Modelled from the spec: `NewInlineFNV64a` lives in `models/inline_fnv.go`,
which is not under src (only its caller `rows.go` is). The spec describes it
only as the series-identity hashing helper; it is the standard 64-bit FNV-1a
hash, embedded with `Nat` arithmetic reduced mod 2^64 at each multiply. -/
def fnvPrime : Nat := 1099511628211

def fnvOffset : Nat := 14695981039346656037

/-- Write a byte sequence into a 64-bit FNV-1a state. -/
def fnvWrite (h : Nat) (bs : List Nat) : Nat :=
  bs.foldl (fun acc b => ((acc ^^^ b) * fnvPrime) % (2 ^ 64)) h

/-- UTF-8 bytes of a string, as Go's `[]byte(s)` produces them. -/
def strBytes (s : String) : List Nat :=
  (s.data.flatMap (fun c => String.utf8EncodeChar c)).map (fun b => b.toNat)

/-- Embedding of `models.Row`. The `Tags` Go map is carried as its list of
entries in iteration order; `interface` cell values are irrelevant to series
identity and embedded as strings. -/
structure Row where
  Name : String
  Tags : GoMap String String
  Columns : List String
  Values : List (List String)
  Partial : Bool
deriving DecidableEq

/-- Embedding of `Row.tagsKeys`: the sorted list of tag keys
(`sort.Strings`). -/
def Row.tagsKeys (z : Row) : List String :=
  List.insertionSort (fun a b => a ≤ b) (z.Tags.map Prod.fst)

/-- Embedding of `Row.tagsHash`: hash key bytes then value bytes for every key
in sorted order. -/
def Row.tagsHash (z : Row) : Nat :=
  (z.tagsKeys).foldl
    (fun h k => fnvWrite (fnvWrite h (strBytes k))
      (strBytes ((GoMap.get? z.Tags k).getD "")))
    fnvOffset

/-- Embedding of `Row.SameSeries`: same tag hash and same measurement name. -/
def Row.SameSeries (z o : Row) : Bool :=
  (z.tagsHash == o.tagsHash) && (z.Name == o.Name)

lemma GoMap.get?_mem {α β : Type} [DecidableEq α] {m : GoMap α β} {k : α} {v : β}
    (h : GoMap.get? m k = some v) : (k, v) ∈ m := by
  unfold GoMap.get? at h
  rcases Option.map_eq_some'.mp h with ⟨⟨k', v'⟩, hfind, hsnd⟩
  cases hsnd
  have hk : k' = k := by simpa using List.find?_some hfind
  have hm := List.mem_reverse.mp (List.mem_of_find?_eq_some hfind)
  subst hk
  exact hm

lemma GoMap.get?_eq_some_iff {α β : Type} [DecidableEq α] (m : GoMap α β) (k : α)
    (hnd : (m.map Prod.fst).Nodup) (v : β) :
    GoMap.get? m k = some v ↔ (k, v) ∈ m := by
  constructor
  · exact GoMap.get?_mem
  · intro hv
    have hs : (GoMap.get? m k).isSome = true := (GoMap.get?_isSome m k).mpr ⟨v, hv⟩
    rcases Option.isSome_iff_exists.mp hs with ⟨v', hv'⟩
    have hm' : (k, v') ∈ m := GoMap.get?_mem hv'
    have : (k, v') = (k, v) := List.inj_on_of_nodup_map hnd hm' hv rfl
    rw [hv']
    exact congrArg some ((Prod.mk.injEq _ _ _ _).mp this).2 |>.symm ▸ by
      cases this
      rfl

lemma GoMap.get?_perm {α β : Type} [DecidableEq α] (m₁ m₂ : GoMap α β)
    (hp : m₁.Perm m₂) (hnd : (m₁.map Prod.fst).Nodup) (k : α) :
    GoMap.get? m₁ k = GoMap.get? m₂ k := by
  have hnd₂ : (m₂.map Prod.fst).Nodup := ((hp.map Prod.fst).nodup_iff).mp hnd
  cases h : GoMap.get? m₁ k with
  | some v =>
      exact ((GoMap.get?_eq_some_iff m₂ k hnd₂ v).mpr
        (hp.mem_iff.mp ((GoMap.get?_eq_some_iff m₁ k hnd v).mp h))).symm
  | none =>
      rcases h2 : GoMap.get? m₂ k with _ | v
      · rfl
      · have hm : (k, v) ∈ m₁ := hp.mem_iff.mpr (GoMap.get?_mem h2)
        have := (GoMap.get?_eq_some_iff m₁ k hnd v).mpr hm
        rw [h] at this
        cases this

lemma insertionSort_le_eq_of_perm (l₁ l₂ : List String) (hp : l₁.Perm l₂) :
    List.insertionSort (fun a b => a ≤ b) l₁ =
      List.insertionSort (fun a b => a ≤ b) l₂ :=
  List.eq_of_perm_of_sorted
    ((List.perm_insertionSort _ l₁).trans (hp.trans (List.perm_insertionSort _ l₂).symm))
    (List.sorted_insertionSort _ l₁) (List.sorted_insertionSort _ l₂)

lemma foldl_fun_ext {α β : Type} (l : List α) (f g : β → α → β) (b : β)
    (h : ∀ x a, f x a = g x a) : l.foldl f b = l.foldl g b := by
  have hfg : f = g := funext (fun x => funext (fun a => h x a))
  rw [hfg]

/-- C9. `Row.SameSeries` is symmetric, and `Row.tagsHash` depends only on the
key/value contents of the `Tags` map and not on its iteration order: rows whose
tag maps hold the same entries (in any order, keys unique as in a Go map) have
equal tag hashes, because the keys are sorted before hashing. -/
theorem sameSeries_symm_tagsHash_order_independent :
    (∀ z o : Row, z.SameSeries o = o.SameSeries z) ∧
      ∀ z o : Row, z.Tags.Perm o.Tags → (z.Tags.map Prod.fst).Nodup →
        z.tagsHash = o.tagsHash := by
  constructor
  · intro z o
    unfold Row.SameSeries
    rw [beq_symm z.tagsHash o.tagsHash, beq_symm z.Name o.Name]
  · intro z o hperm hnd
    unfold Row.tagsHash
    have hkeys : z.tagsKeys = o.tagsKeys := by
      unfold Row.tagsKeys
      exact insertionSort_le_eq_of_perm _ _ (hperm.map Prod.fst)
    rw [hkeys]
    exact foldl_fun_ext _ _ _ _ (fun h k => by
      rw [GoMap.get?_perm z.Tags o.Tags hperm hnd k])

def rowA : Row := ⟨"m", [("a", "1"), ("b", "2")], ["c"], [["v"]], false⟩

def rowB : Row := ⟨"m", [("b", "2"), ("a", "1")], ["c"], [["v"]], false⟩

theorem sameSeries_symm_tagsHash_order_independent_witness :
    rowA.SameSeries rowB = rowB.SameSeries rowA ∧ rowA.tagsHash = rowB.tagsHash :=
  ⟨sameSeries_symm_tagsHash_order_independent.1 rowA rowB,
    sameSeries_symm_tagsHash_order_independent.2 rowA rowB (by decide) (by decide)⟩

/-! ## The `/debug/vars` handler (`Mux.serveExpvar` in the debug package) -/

/-- Embedding of `monitor.Statistic` as consumed by `serveExpvar`: a name and a
tag map (the statistic's values play no role in keying or ordering). -/
structure Statistic where
  Name : String
  Tags : GoMap String String
deriving DecidableEq

/-- Embedding of the key-building block of `Mux.serveExpvar`: start from the
statistic name, then append tag values following the source's nested
`path`/`id`, `bind`/`proto`, `database`/`retention_policy`/`name`/`destination`
conditionals. -/
def statKey (s : Statistic) : String :=
  s.Name ++
    (match GoMap.get? s.Tags "path" with
     | some path =>
         ":" ++ path ++
           (match GoMap.get? s.Tags "id" with
            | some i => ":" ++ i
            | none => "")
     | none =>
         match GoMap.get? s.Tags "bind" with
         | some bind =>
             (match GoMap.get? s.Tags "proto" with
              | some proto => ":" ++ proto
              | none => "") ++ (":" ++ bind)
         | none =>
             match GoMap.get? s.Tags "database" with
             | some database =>
                 ":" ++ database ++
                   (match GoMap.get? s.Tags "retention_policy" with
                    | some rp =>
                        ":" ++ rp ++
                          (match GoMap.get? s.Tags "name" with
                           | some n => ":" ++ n
                           | none => "") ++
                          (match GoMap.get? s.Tags "destination" with
                           | some dest => ":" ++ dest
                           | none => "")
                    | none => "")
             | none => "")

/-- Embedding of the `statMap` built by `serveExpvar`: one write per statistic
in slice order (`statMap[key] = s`), so a later statistic with the same key
overwrites an earlier one. -/
def statMapOf (stats : List Statistic) : GoMap String Statistic :=
  stats.map (fun s => (statKey s, s))

/-- The distinct keys of `statMap` (the `for k := range statMap` collection;
the subsequent sort makes the range order irrelevant). -/
def statMapKeys (stats : List Statistic) : List String :=
  ((statMapOf stats).map Prod.fst).dedup

/-- Embedding of the emission loop of `Mux.serveExpvar`: sort the keys
(`sort.Strings`) and emit, per key in ascending order, the statistic stored in
`statMap` under that key. -/
def serveExpvar (stats : List Statistic) : List (String × Statistic) :=
  (List.insertionSort (fun a b => a ≤ b) (statMapKeys stats)).filterMap
    (fun k => ((statMapOf stats).get? k).map (fun s => (k, s)))

lemma statMapOf_get? (stats : List Statistic) (k : String) :
    (statMapOf stats).get? k = stats.reverse.find? (fun s => statKey s == k) := by
  unfold GoMap.get? statMapOf
  rw [← List.map_reverse, List.find?_map]
  cases h : stats.reverse.find? ((fun p => p.1 == k) ∘ (fun s => (statKey s, s))) with
  | none =>
      have h' : stats.reverse.find? (fun s => statKey s == k) = none := h
      rw [h']
      rfl
  | some s =>
      have h' : stats.reverse.find? (fun s => statKey s == k) = some s := h
      rw [h']
      rfl

lemma filterMap_keyed_map_fst {β : Type} (l : List String) (h : String → Option β)
    (hall : ∀ k ∈ l, (h k).isSome = true) :
    ((l.filterMap (fun k => (h k).map (fun s => (k, s)))).map Prod.fst) = l := by
  induction l with
  | nil => rfl
  | cons a t ih =>
      rw [List.filterMap_cons]
      rcases Option.isSome_iff_exists.mp (hall a (List.mem_cons_self a t)) with ⟨v, hv⟩
      simp only [hv, Option.map_some', List.map_cons]
      rw [ih (fun k hk => hall k (List.mem_cons_of_mem _ hk))]

lemma serveExpvar_keys (stats : List Statistic) :
    (serveExpvar stats).map Prod.fst =
      List.insertionSort (fun a b => a ≤ b) (statMapKeys stats) := by
  unfold serveExpvar
  apply filterMap_keyed_map_fst
  intro k hk
  have hk' : k ∈ statMapKeys stats :=
    (List.perm_insertionSort (fun a b => a ≤ b) (statMapKeys stats)).mem_iff.mp hk
  have hk'' : k ∈ (statMapOf stats).map Prod.fst := List.mem_dedup.mp hk'
  rcases List.mem_map.mp hk'' with ⟨⟨k', v⟩, hm, hfst⟩
  exact (GoMap.get?_isSome _ _).mpr ⟨v, by rwa [← hfst]⟩

/-- C10. The `/debug/vars` handler emits statistics keyed by the name-plus-tags
key in (strictly) ascending lexicographic key order, and when two statistics
produce the same key only the one stored last in `statMap` (the last such
statistic in the slice) is emitted; earlier ones are silently dropped. -/
theorem serveExpvar_sorted_last_wins (stats : List Statistic) :
    ((serveExpvar stats).map Prod.fst).Pairwise (fun a b => a < b) ∧
      serveExpvar stats =
        (List.insertionSort (fun a b => a ≤ b) (statMapKeys stats)).filterMap
          (fun k => (stats.reverse.find? (fun s => statKey s == k)).map
            (fun s => (k, s))) ∧
      ∀ s ∈ stats, statKey s ∈ (serveExpvar stats).map Prod.fst := by
  refine ⟨?_, ?_, ?_⟩
  · rw [serveExpvar_keys]
    have hsorted : List.Sorted (fun a b => a ≤ b)
        (List.insertionSort (fun a b => a ≤ b) (statMapKeys stats)) :=
      List.sorted_insertionSort _ _
    have hnd : (List.insertionSort (fun a b => a ≤ b) (statMapKeys stats)).Nodup :=
      ((List.perm_insertionSort _ _).nodup_iff).mpr (List.nodup_dedup _)
    exact hsorted.lt_of_le hnd
  · unfold serveExpvar
    have hfun : (fun k => ((statMapOf stats).get? k).map
          (fun s => (k, s)) : String → Option (String × Statistic)) =
        (fun k => (stats.reverse.find? (fun s => statKey s == k)).map
          (fun s => (k, s))) := by
      funext k
      rw [statMapOf_get?]
    rw [hfun]
  · intro s hs
    rw [serveExpvar_keys]
    have h1 : statKey s ∈ (statMapOf stats).map Prod.fst := by
      unfold statMapOf
      rw [List.map_map]
      exact List.mem_map.mpr ⟨s, hs, rfl⟩
    exact (List.perm_insertionSort _ _).mem_iff.mpr (List.mem_dedup.mpr h1)

def statDup1 : Statistic := ⟨"shard", [("path", "/d1")]⟩

def statDup2 : Statistic := ⟨"shard", [("path", "/d1")]⟩

theorem serveExpvar_sorted_last_wins_witness :
    statKey statDup1 ∈ (serveExpvar [statDup1, statDup2]).map Prod.fst :=
  (serveExpvar_sorted_last_wins [statDup1, statDup2]).2.2 statDup1 (by decide)

/-! ## Lifecycle of the service: loops, force triggers, Close

The two reaper goroutines (`serviceDeleteShardGroups`, `serviceDeleteShards`),
the unbuffered force channels, the `done` channel and the WaitGroup are
embedded as a labelled transition system. Each loop is `waiting` (blocked in
its three-way select), `sweeping` (a sweep call in progress) or `exited`
(returned, `wg.Done` executed). A force sender is `idle`, `sending` (blocked in
the channel send) or `sent` (the handoff completed). `tickFire` models the
ticker case of the select (the ticker may always be ready, even after `done`
was closed, matching Go's select over ready channels); `handoff` models the
rendezvous on the unbuffered force channel; `exit` models the select choosing
the closed `done` channel and returning; `closeCall` models `close(s.done)`
followed by entering `wg.Wait()`; `closeRet` models `wg.Wait()` returning,
which requires the WaitGroup counter to be zero. -/

inductive LoopSt where
  | waiting : LoopSt
  | sweeping : LoopSt
  | exited : LoopSt
deriving DecidableEq

inductive SendSt where
  | idle : SendSt
  | sending : SendSt
  | sent : SendSt
deriving DecidableEq

inductive CloseSt where
  | notCalled : CloseSt
  | waitingWg : CloseSt
  | returned : CloseSt
deriving DecidableEq

structure Sys where
  doneClosed : Bool
  loop1 : LoopSt
  loop2 : LoopSt
  send1 : SendSt
  send2 : SendSt
  wg : Nat
  closeSt : CloseSt
deriving DecidableEq

inductive Label where
  | tickFire1 : Label
  | tickFire2 : Label
  | forceSend1 : Label
  | forceSend2 : Label
  | handoff1 : Label
  | handoff2 : Label
  | sweepDone1 : Label
  | sweepDone2 : Label
  | exit1 : Label
  | exit2 : Label
  | closeCall : Label
  | closeRet : Label
deriving DecidableEq

/-- One enabled transition of the lifecycle system per label, `none` when the
label is not enabled in the given state. -/
def stepFn (s : Sys) : Label → Option Sys
  | Label.tickFire1 =>
      if s.loop1 = LoopSt.waiting then
        some ⟨s.doneClosed, LoopSt.sweeping, s.loop2, s.send1, s.send2, s.wg, s.closeSt⟩
      else none
  | Label.tickFire2 =>
      if s.loop2 = LoopSt.waiting then
        some ⟨s.doneClosed, s.loop1, LoopSt.sweeping, s.send1, s.send2, s.wg, s.closeSt⟩
      else none
  | Label.forceSend1 =>
      if s.send1 = SendSt.idle then
        some ⟨s.doneClosed, s.loop1, s.loop2, SendSt.sending, s.send2, s.wg, s.closeSt⟩
      else none
  | Label.forceSend2 =>
      if s.send2 = SendSt.idle then
        some ⟨s.doneClosed, s.loop1, s.loop2, s.send1, SendSt.sending, s.wg, s.closeSt⟩
      else none
  | Label.handoff1 =>
      if s.send1 = SendSt.sending ∧ s.loop1 = LoopSt.waiting then
        some ⟨s.doneClosed, LoopSt.sweeping, s.loop2, SendSt.sent, s.send2, s.wg, s.closeSt⟩
      else none
  | Label.handoff2 =>
      if s.send2 = SendSt.sending ∧ s.loop2 = LoopSt.waiting then
        some ⟨s.doneClosed, s.loop1, LoopSt.sweeping, s.send1, SendSt.sent, s.wg, s.closeSt⟩
      else none
  | Label.sweepDone1 =>
      if s.loop1 = LoopSt.sweeping then
        some ⟨s.doneClosed, LoopSt.waiting, s.loop2, s.send1, s.send2, s.wg, s.closeSt⟩
      else none
  | Label.sweepDone2 =>
      if s.loop2 = LoopSt.sweeping then
        some ⟨s.doneClosed, s.loop1, LoopSt.waiting, s.send1, s.send2, s.wg, s.closeSt⟩
      else none
  | Label.exit1 =>
      if s.loop1 = LoopSt.waiting ∧ s.doneClosed = true then
        some ⟨s.doneClosed, LoopSt.exited, s.loop2, s.send1, s.send2, s.wg - 1, s.closeSt⟩
      else none
  | Label.exit2 =>
      if s.loop2 = LoopSt.waiting ∧ s.doneClosed = true then
        some ⟨s.doneClosed, s.loop1, LoopSt.exited, s.send1, s.send2, s.wg - 1, s.closeSt⟩
      else none
  | Label.closeCall =>
      if s.closeSt = CloseSt.notCalled then
        some ⟨true, s.loop1, s.loop2, s.send1, s.send2, s.wg, CloseSt.waitingWg⟩
      else none
  | Label.closeRet =>
      if s.closeSt = CloseSt.waitingWg ∧ s.wg = 0 then
        some ⟨s.doneClosed, s.loop1, s.loop2, s.send1, s.send2, s.wg, CloseSt.returned⟩
      else none

/-- State right after `Open`: `wg.Add(2)` done, both loops started and waiting,
`done` not yet closed, no force send in flight. -/
def initSys : Sys :=
  ⟨false, LoopSt.waiting, LoopSt.waiting, SendSt.idle, SendSt.idle, 2, CloseSt.notCalled⟩

/-- Run a list of labels from a state; `none` if some label is not enabled. -/
def sysRun (s : Sys) : List Label → Option Sys
  | [] => some s
  | l :: ls =>
      match stepFn s l with
      | some t => sysRun t ls
      | none => none

lemma sysRun_append_some {ls₁ ls₂ : List Label} {s t : Sys}
    (h : sysRun s (ls₁ ++ ls₂) = some t) :
    ∃ u, sysRun s ls₁ = some u ∧ sysRun u ls₂ = some t := by
  induction ls₁ generalizing s with
  | nil => exact ⟨s, rfl, h⟩
  | cons l ls ih =>
      cases hstep : stepFn s l with
      | none => simp [sysRun, hstep] at h
      | some u =>
          simp only [List.cons_append, sysRun, hstep] at h
          rcases ih h with ⟨w, h1, h2⟩
          exact ⟨w, by simp [sysRun, hstep, h1], h2⟩

/-- WaitGroup invariant: the counter equals the number of loops that have not
yet exited. -/
def wgInv (s : Sys) : Prop :=
  s.wg = (if s.loop1 = LoopSt.exited then 0 else 1) +
    (if s.loop2 = LoopSt.exited then 0 else 1)

lemma stepFn_wgInv {s t : Sys} {l : Label} (hs : wgInv s) (h : stepFn s l = some t) :
    wgInv t := by
  cases l <;>
    (simp only [stepFn] at h
     split_ifs at h with hc <;> cases h
     unfold wgInv at hs ⊢
     by_cases h1 : s.loop1 = LoopSt.exited <;>
       by_cases h2 : s.loop2 = LoopSt.exited <;>
         simp_all <;> omega)

lemma sysRun_wgInv (ls : List Label) {s t : Sys} (hs : wgInv s)
    (h : sysRun s ls = some t) : wgInv t := by
  induction ls generalizing s with
  | nil => cases h; exact hs
  | cons l ls ih =>
      cases hstep : stepFn s l with
      | none => simp [sysRun, hstep] at h
      | some u =>
          simp only [sysRun, hstep] at h
          exact ih (stepFn_wgInv hs hstep) h

/-- A state in which `Close` has returned and both loops have exited. -/
def SysClosed (s : Sys) : Prop :=
  s.closeSt = CloseSt.returned ∧ s.loop1 = LoopSt.exited ∧ s.loop2 = LoopSt.exited

lemma stepFn_closed {s t : Sys} {l : Label} (hcs : SysClosed s)
    (h : stepFn s l = some t) :
    (l = Label.forceSend1 ∨ l = Label.forceSend2) ∧ SysClosed t := by
  obtain ⟨hret, he1, he2⟩ := hcs
  cases l <;> simp only [stepFn] at h <;> split_ifs at h with hc <;> cases h <;>
    simp_all [SysClosed]

lemma sysRun_closed (ls : List Label) {s t : Sys} (hcs : SysClosed s)
    (h : sysRun s ls = some t) :
    SysClosed t ∧ ∀ l ∈ ls, l = Label.forceSend1 ∨ l = Label.forceSend2 := by
  induction ls generalizing s with
  | nil => cases h; exact ⟨hcs, by simp⟩
  | cons l ls ih =>
      cases hstep : stepFn s l with
      | none => simp [sysRun, hstep] at h
      | some u =>
          simp only [sysRun, hstep] at h
          obtain ⟨hl, hcu⟩ := stepFn_closed hcs hstep
          obtain ⟨hct, hrest⟩ := ih hcu h
          refine ⟨hct, ?_⟩
          intro l' hl'
          rcases List.mem_cons.mp hl' with h' | h'
          · subst h'; exact hl
          · exact hrest l' h'

/-- C4. Clean shutdown: `Close` (modelled by `closeCall` followed by
`closeRet`, i.e. `close(s.done)` then `wg.Wait()`) can only return once both
reaper loops have exited — `closeRet` demands a zero WaitGroup counter, which
the invariant ties to both loops having exited — and after it returns the only
steps still enabled are force-send attempts, which make no MetaClient or
ShardStore call: no tick, handoff, sweep completion or exit step occurs after
`closeRet`, so no sweep (and hence no collaborator call) happens past `Close`;
a loop that observes the shutdown signal (`exit` step) exits without starting
any new sweep. -/
theorem close_clean_shutdown (ls₁ ls₂ : List Label) (s' : Sys)
    (h : sysRun initSys (ls₁ ++ Label.closeRet :: ls₂) = some s') :
    s'.loop1 = LoopSt.exited ∧ s'.loop2 = LoopSt.exited ∧
      ∀ l ∈ ls₂, l = Label.forceSend1 ∨ l = Label.forceSend2 := by
  rcases sysRun_append_some h with ⟨sMid, hmid, hrest⟩
  cases hstep : stepFn sMid Label.closeRet with
  | none => simp [sysRun, hstep] at hrest
  | some sNext =>
      simp only [sysRun, hstep] at hrest
      have hw : wgInv sMid := sysRun_wgInv ls₁ (by simp [wgInv, initSys]) hmid
      simp only [stepFn] at hstep
      split_ifs at hstep with hc
      cases hstep
      obtain ⟨hcs, hwg⟩ := hc
      have he1 : sMid.loop1 = LoopSt.exited := by
        by_contra h1
        unfold wgInv at hw
        by_cases h2 : sMid.loop2 = LoopSt.exited <;> simp [h1, h2] at hw <;> omega
      have he2 : sMid.loop2 = LoopSt.exited := by
        by_contra h2
        unfold wgInv at hw
        by_cases h1 : sMid.loop1 = LoopSt.exited <;> simp [h1, h2] at hw <;> omega
      have hclosed : SysClosed ⟨sMid.doneClosed, sMid.loop1, sMid.loop2, sMid.send1,
          sMid.send2, sMid.wg, CloseSt.returned⟩ := ⟨rfl, he1, he2⟩
      obtain ⟨hct, hls⟩ := sysRun_closed ls₂ hclosed hrest
      exact ⟨hct.2.1, hct.2.2, hls⟩

def sysAfterClose : Sys :=
  ⟨true, LoopSt.exited, LoopSt.exited, SendSt.sending, SendSt.idle, 0, CloseSt.returned⟩

theorem close_clean_shutdown_witness :
    sysAfterClose.loop1 = LoopSt.exited ∧ sysAfterClose.loop2 = LoopSt.exited ∧
      ∀ l ∈ [Label.forceSend1], l = Label.forceSend1 ∨ l = Label.forceSend2 :=
  close_clean_shutdown
    [Label.closeCall, Label.tickFire1, Label.sweepDone1, Label.exit1, Label.exit2]
    [Label.forceSend1] sysAfterClose (by decide)

/-- C5. Force-trigger independence and handoff: the two force channels are
single-slot unbuffered handoffs — a `handoff` step is enabled exactly when a
send is in flight and the target loop is waiting in its select — and a handoff
moves the sender to `sent` (the trigger call returns) while the target loop is
only just entering its sweep (`sweeping`, not finished), touching neither the
other reaper's loop nor the other force slot; a ticker fire likewise leaves
both force slots untouched, so triggers are independent of the ticker. -/
theorem force_trigger_handoff (s : Sys) :
    (((stepFn s Label.handoff1).isSome = true) ↔
        (s.send1 = SendSt.sending ∧ s.loop1 = LoopSt.waiting)) ∧
      (∀ t, stepFn s Label.handoff1 = some t →
        t.send1 = SendSt.sent ∧ t.loop1 = LoopSt.sweeping ∧
          t.send2 = s.send2 ∧ t.loop2 = s.loop2) ∧
      (((stepFn s Label.handoff2).isSome = true) ↔
        (s.send2 = SendSt.sending ∧ s.loop2 = LoopSt.waiting)) ∧
      (∀ t, stepFn s Label.handoff2 = some t →
        t.send2 = SendSt.sent ∧ t.loop2 = LoopSt.sweeping ∧
          t.send1 = s.send1 ∧ t.loop1 = s.loop1) ∧
      (∀ t, stepFn s Label.tickFire1 = some t →
        t.send1 = s.send1 ∧ t.send2 = s.send2) ∧
      (∀ t, stepFn s Label.tickFire2 = some t →
        t.send1 = s.send1 ∧ t.send2 = s.send2) := by
  refine ⟨?_, ?_, ?_, ?_, ?_, ?_⟩
  · simp only [stepFn]
    split_ifs with hc <;> simp [hc]
  · intro t h
    simp only [stepFn] at h
    split_ifs at h with hc <;> cases h
    simp
  · simp only [stepFn]
    split_ifs with hc <;> simp [hc]
  · intro t h
    simp only [stepFn] at h
    split_ifs at h with hc <;> cases h
    simp
  · intro t h
    simp only [stepFn] at h
    split_ifs at h with hc <;> cases h
    simp
  · intro t h
    simp only [stepFn] at h
    split_ifs at h with hc <;> cases h
    simp

def trigSys : Sys :=
  ⟨false, LoopSt.waiting, LoopSt.sweeping, SendSt.sending, SendSt.idle, 2, CloseSt.notCalled⟩

def trigSysAfter : Sys :=
  ⟨false, LoopSt.sweeping, LoopSt.sweeping, SendSt.sent, SendSt.idle, 2, CloseSt.notCalled⟩

theorem force_trigger_handoff_witness :
    trigSysAfter.send1 = SendSt.sent ∧ trigSysAfter.loop1 = LoopSt.sweeping ∧
      trigSysAfter.send2 = trigSys.send2 ∧ trigSysAfter.loop2 = trigSys.loop2 :=
  (force_trigger_handoff trigSys).2.1 trigSysAfter (by decide)

/-! ## Double close of the `done` channel -/

/-- State of the `done` channel of a `Service`. -/
structure DoneChannel where
  isClosed : Bool
deriving DecidableEq

/-- Embedding of the `close(s.done)` statement that `Service.Close` executes
unconditionally: Go panics (the `Except.error` branch) when the channel is
already closed, otherwise the channel becomes closed. There is no single-close
guard in `Service.Close`. -/
def serviceCloseDone (c : DoneChannel) : Except Unit DoneChannel :=
  if c.isClosed then Except.error () else Except.ok ⟨true⟩

/-- C6 counterexample: on the concrete fresh service, the first `Close` closes
the `done` channel and a second `Close` panics (Go's close of a closed
channel), refuting the claim that a second `Close` does not panic thanks to a
single-close guard. -/
theorem double_close_panics_counterexample :
    serviceCloseDone ⟨false⟩ = Except.ok ⟨true⟩ ∧
      serviceCloseDone ⟨true⟩ = Except.error () :=
  ⟨rfl, rfl⟩

/-- C6 amended: calling `Close` a second time on an already-closed Service
panics — `Close` runs `close(s.done)` unguarded, and closing an already-closed
channel panics — because the shutdown signal is not protected by any
single-close primitive. -/
theorem double_close_panics (c c' : DoneChannel)
    (h : serviceCloseDone c = Except.ok c') :
    serviceCloseDone c' = Except.error () := by
  unfold serviceCloseDone at h ⊢
  by_cases hc : c.isClosed
  · rw [if_pos hc] at h
    cases h
  · rw [if_neg hc] at h
    cases h
    simp

theorem double_close_panics_witness :
    serviceCloseDone ⟨true⟩ = Except.error () :=
  double_close_panics ⟨false⟩ ⟨true⟩ rfl
